/-
Verification of the MIME message ingestion core in `inbox/models/message.py`.

The Python source is shallowly embedded: byte/unicode strings become `List Char`,
`None`-able attributes become `Option`, SQLAlchemy model objects become plain
structures, and the exception control flow of `Message.create_from_synced`
becomes explicit propagation of an optional exception-class value alongside the
partially populated message state.  External capabilities (the flanker MIME
tokenizer, the address-header parser, the calendar importer, the HTML helpers
`strip_tags`/`plaintext2html`, the SHA-256 digest) are supplied as data or
functions in the pipeline input, mirroring the interfaces the source consumes.
-/
import Mathlib

namespace SyncEngine

/-- Strings off the wire are modelled as lists of characters. -/
abbrev Str := List Char

/-- The whitespace set used by Python's `str.split()` / `str.strip()`:
space, tab, newline, carriage return, vertical tab, form feed. -/
def pyIsSpace (c : Char) : Bool :=
  c = ' ' || c = '\t' || c = '\n' || c = '\r' || c = '\x0b' || c = '\x0c'

/-- One step of the right fold implementing Python's `str.split()`:
a whitespace character opens a new (initially empty) word, any other
character is prepended to the current head word. -/
def splitWsStep (c : Char) (acc : List Str) : List Str :=
  if pyIsSpace c then [] :: acc
  else
    match acc with
    | [] => [[c]]
    | w :: ws => (c :: w) :: ws

/-- Accumulator pass for `pySplit`; may contain empty words at whitespace runs. -/
def splitWsAux (s : Str) : List Str := s.foldr splitWsStep []

/-- Python `text.split()` (no separator argument): split on whitespace runs,
discarding empty fields. -/
def pySplit (s : Str) : List Str := (splitWsAux s).filter (fun w => ¬ w = [])

/-- Python `' '.join(words)`. -/
def joinWords : List Str → Str
  | [] => []
  | [w] => w
  | w :: ws => w ++ ' ' :: joinWords ws

/-- Python `s.strip()`: remove leading and trailing whitespace. -/
def pyStrip (s : Str) : Str :=
  ((s.dropWhile pyIsSpace).reverse.dropWhile pyIsSpace).reverse

/-- Source `_trim_filename` (message.py:35-40) at the default `max_len=64`,
lifted over `None` filenames as the call sites use it: if the filename is
non-empty and longer than 64 characters, keep the first 56 and the last 8
characters (preserving an extension). -/
def _trim_filename : Option Str → Option Str
  | none => none
  | some s =>
    if s ≠ [] ∧ 64 < s.length then some (s.take (64 - 8) ++ s.drop (s.length - 8))
    else some s

/-- Python `data.replace('\r\n', '\n')`, left-to-right, non-overlapping. -/
def replace_crlf : Str → Str
  | '\r' :: '\n' :: rest => '\n' :: replace_crlf rest
  | c :: rest => c :: replace_crlf rest
  | [] => []

/-- Python `data.replace('\r', '\n')`. -/
def replace_cr (s : Str) : Str := s.map (fun c => if c = '\r' then '\n' else c)

/-- The newline normalization in `_parse_mimepart` (message.py:351-353). -/
def normalize_newlines (s : Str) : Str := replace_cr (replace_crlf s)

example : pySplit "  a  b ".toList = ["a".toList, "b".toList] := by decide
example : joinWords (pySplit "a \t b".toList) = "a b".toList := by decide
example : pyStrip "  hi ".toList = "hi".toList := by decide
example : normalize_newlines "a\r\nb\rc".toList = "a\nb\nc".toList := by decide

/-- A `(display phrase, email address)` pair as produced by the address-header
parser and stored in the `from_addr`/`to_addr`/... JSON columns. -/
abbrev AddrPair := Str × Str

/-- Keep-first deduplication, with an accumulator of already-seen elements. -/
def dedup_first_aux [DecidableEq α] (seen : List α) : List α → List α
  | [] => []
  | x :: xs =>
    if x ∈ seen then dedup_first_aux seen xs
    else x :: dedup_first_aux (x :: seen) xs

/-- Keep-first deduplication (first occurrence wins). -/
def dedup_first [DecidableEq α] (l : List α) : List α := dedup_first_aux [] l

/-- Modelled from the spec: `parse_references` lives in `inbox.util.misc`,
which is not under src/.  Per §4.5 (ReferenceParser) it returns an ordered,
deduplicated sequence of message identifiers, `References` entries preceding
`In-Reply-To` entries, first occurrence winning on duplicates.  Identifier
tokenization is modelled as whitespace splitting. -/
def parse_references (references in_reply_to : Str) : List Str :=
  dedup_first (pySplit references ++ pySplit in_reply_to)

/-- The Python exception classes that play a role in
`Message.create_from_synced`'s control flow.  The first five are the classes
caught by the outer `except` clause (message.py:289-290); the next two occur
in the calendar-import `except` clauses (message.py:274-278); the last two
stand for exception classes caught by neither handler. -/
inductive PyExn where
  | DecodingError
  | AttributeError
  | RuntimeError
  | TypeError
  | ValueError
  | MalformedEventError
  | AssertionError
  | KeyError
  | OSError
deriving DecidableEq

/-- The classes caught by the `except` clause of `create_from_synced`
(message.py:289-290). -/
def outer_caught : PyExn → Bool
  | .DecodingError => true
  | .AttributeError => true
  | .RuntimeError => true
  | .TypeError => true
  | .ValueError => true
  | _ => false

/-- The classes caught around `import_attached_events`
(message.py:274-278): `MalformedEventError`, then the tuple
`(AssertionError, TypeError, RuntimeError, AttributeError, ValueError)`. -/
def calendar_caught : PyExn → Bool
  | .MalformedEventError => true
  | .AssertionError => true
  | .TypeError => true
  | .RuntimeError => true
  | .AttributeError => true
  | .ValueError => true
  | _ => false

/-- The content-type of a MIME part as exposed by the flanker tokenizer:
top-level type, subtype, and the `name` parameter of the
`Content-Type` header (`content_type.params.get('name')`). -/
structure CType where
  format_type : Str
  subtype : Str
  name_param : Option Str
deriving DecidableEq

/-- Python `content_type.value`: `"type/subtype"`. -/
def CType.value (ct : CType) : Str := ct.format_type ++ '/' :: ct.subtype

/-- The decoded MIME tree handed over by the external tokenizer.  A `leaf`
carries its content-disposition (value and `filename` parameter), its
`Content-Id` header, and its (already charset-decoded) body; a `multi` node
is a multipart container. -/
inductive MimePart where
  | leaf (ct : CType) (disposition : Option Str) (disposition_filename : Option Str)
      (content_id : Option Str) (body : Option Str)
  | multi (ct : CType) (children : List MimePart)

/-- Python `mimepart.content_type.is_multipart()`: in the model, exactly the
`multi` nodes are multipart containers. -/
def MimePart.is_multipart : MimePart → Bool
  | .leaf _ _ _ _ _ => false
  | .multi _ _ => true

/-- The content type of a part. -/
def MimePart.ctype : MimePart → CType
  | .leaf ct _ _ _ _ => ct
  | .multi ct _ => ct

mutual
/-- The proper descendants of a part in document (depth-first) order,
as enumerated by flanker's `walk()`: every nested part is yielded,
multipart containers included. -/
def MimePart.walkDescendants : MimePart → List MimePart
  | .leaf _ _ _ _ _ => []
  | .multi _ children => walkDescList children

/-- Depth-first enumeration of a list of sibling parts. -/
def walkDescList : List MimePart → List MimePart
  | [] => []
  | p :: ps => p :: p.walkDescendants ++ walkDescList ps
end

/-- The part sequence traversed by the loop in `create_from_synced`
(message.py:258-259): `parsed.walk(with_self=parsed.content_type.is_singlepart())`.
A single-part message yields itself (it has no descendants); a multipart
message yields its proper descendants. -/
def msgWalk (root : MimePart) : List MimePart :=
  if root.is_multipart then root.walkDescendants else root :: root.walkDescendants

/-- A content `Block`: namespace, content type, optional filename, payload. -/
structure BlockRec where
  namespace_id : Option Nat
  content_type : Option Str
  filename : Option Str
  data : Str
deriving DecidableEq

/-- A `Part` attached to a message: walk index, content disposition,
content id, and its owned block. -/
structure PartRec where
  walk_index : Nat
  content_disposition : Option Str
  content_id : Option Str
  block : BlockRec
deriving DecidableEq

/-- The mutable state of a `Message` object during ingestion.  `none` stands
for a Python attribute that is still `None`/unset. -/
structure MsgState where
  namespace_id : Option Nat := none
  full_body : Option BlockRec := none
  data_sha256 : Option Str := none
  subject : Option Str := none
  from_addr : Option (List AddrPair) := none
  sender_addr : Option (List AddrPair) := none
  reply_to : Option (List AddrPair) := none
  to_addr : Option (List AddrPair) := none
  cc_addr : Option (List AddrPair) := none
  bcc_addr : Option (List AddrPair) := none
  in_reply_to : Option Str := none
  message_id_header : Option Str := none
  received_date : Option Nat := none
  inbox_uid : Option Str := none
  references : Option (List Str) := none
  size : Option Nat := none
  decode_error : Bool := false
  sanitized_body : Option Str := none
  snippet : Option Str := none
  parts : List PartRec := []
deriving DecidableEq

/-- Source `Message._mark_error` (message.py:363-372): set the decode-error
flag, zero `size`, and fill `received_date`, `sanitized_body` and `snippet`
with defaults when they are still unset.  `now` models
`datetime.datetime.utcnow()`. -/
def _mark_error (now : Nat) (m : MsgState) : MsgState :=
  { m with
    decode_error := true
    size := some 0
    received_date := if m.received_date = none then some now else m.received_date
    sanitized_body := if m.sanitized_body = none then some [] else m.sanitized_body
    snippet := if m.snippet = none then some [] else m.snippet }

/-- `Message.SNIPPET_LENGTH` (message.py:117). -/
def SNIPPET_LENGTH : Nat := 191

/-- Source `Message.calculate_plaintext_snippet` (message.py:392-393):
`' '.join(text.split())[:self.SNIPPET_LENGTH]`. -/
def calculate_plaintext_snippet (text : Str) : Str :=
  (joinWords (pySplit text)).take SNIPPET_LENGTH

/-- Source `Message.calculate_html_snippet` (message.py:388-390), with the
external `strip_tags` (from `inbox.util.html`, not under src/) passed in as a
capability. -/
def calculate_html_snippet (strip_tags : Str → Str) (text : Str) : Str :=
  calculate_plaintext_snippet (strip_tags text)

/-- Source `Message.body` (message.py:395-413): the `(plain_data, html_data)`
pair.  Each component is the UTF-8-decoded, whitespace-stripped data of the
first part (in document order) whose block has the matching content type.
The leading `assert self.parts` is modelled as an `AssertionError` outcome. -/
def message_body (parts : List PartRec) :
    (Option Str × Option Str) × Option PyExn :=
  if parts = [] then ((none, none), some .AssertionError)
  else
    let html_data := (parts.find? (fun p => p.block.content_type = some ("text/html".toList))).map
      (fun p => pyStrip p.block.data)
    let plain_data := (parts.find? (fun p => p.block.content_type = some ("text/plain".toList))).map
      (fun p => pyStrip p.block.data)
    ((plain_data, html_data), none)

/-- The `else`/`elif plain_part:` branches of `calculate_sanitized_body`
(message.py:381-386), with the external `plaintext2html` passed in as a
capability. -/
def plain_branch (plaintext2html : Str → Str) (m : MsgState) (plain_part : Option Str) :
    MsgState :=
  match plain_part with
  | some p =>
    if p ≠ [] then
      { m with
        snippet := some (calculate_plaintext_snippet p)
        sanitized_body := some (plaintext2html p) }
    else { m with sanitized_body := some [], snippet := some [] }
  | none => { m with sanitized_body := some [], snippet := some [] }

/-- Source `Message.calculate_sanitized_body` (message.py:374-386).  The
`assert '\r' not in html_part` is modelled as an `AssertionError` outcome,
as is the `assert self.parts` inside the `body` property. -/
def calculate_sanitized_body (strip_tags plaintext2html : Str → Str) (m : MsgState) :
    MsgState × Option PyExn :=
  match message_body m.parts with
  | (_, some e) => (m, some e)
  | ((plain_part, html_part), none) =>
    match html_part with
    | some h =>
      if h ≠ [] then
        if '\r' ∈ h then (m, some .AssertionError)
        else
          ({ m with
              snippet := some (calculate_html_snippet strip_tags h)
              sanitized_body := some h }, none)
      else (plain_branch plaintext2html m plain_part, none)
    | none => (plain_branch plaintext2html m plain_part, none)

/-- Source `Message._parse_mimepart` (message.py:318-361) on a single walked
part: reject (mark errored, attach nothing) when the content-disposition is
present but neither `inline` nor `attachment`; otherwise attach one Part+Block
at the given walk index.  The filename comes from the content-type `name`
parameter, overwritten by the `Content-Disposition` `filename` parameter when
the disposition is `attachment`; `text/*` bodies get their newlines
normalized; absent bodies become empty payloads.  `multi` nodes are never
passed in by the caller (the loop skips them); for totality they are returned
unchanged. -/
def _parse_mimepart (now : Nat) (namespace_id : Nat) (m : MsgState) (p : MimePart)
    (index : Nat) : MsgState :=
  match p with
  | .multi _ _ => m
  | .leaf ct disposition disposition_filename content_id body =>
    if disposition ≠ none ∧ disposition ≠ some ("inline".toList) ∧
        disposition ≠ some ("attachment".toList) then
      _mark_error now m
    else
      let filename :=
        if disposition = some ("attachment".toList) then _trim_filename disposition_filename
        else _trim_filename ct.name_param
      let data_to_write : Str :=
        match body with
        | none => []
        | some b =>
          if ("text".toList).isPrefixOf ct.value then normalize_newlines b else b
      let block : BlockRec :=
        { namespace_id := some namespace_id
          content_type := some ct.value
          filename := filename
          data := data_to_write }
      let new_part : PartRec :=
        { walk_index := index
          content_disposition := disposition
          content_id := content_id
          block := block }
      { m with parts := m.parts ++ [new_part] }

/-- The structured result of `mime.from_string` together with the values the
repository's helper parsers (`parse_mimepart_address_header` from
`inbox.util.addr`, `get_internaldate` from `inbox.util.misc` — neither under
src/) extract from it.  `internal_date` is the outcome of deriving a received
date from the `Date`/`Received` headers; it is fallible (EAS messages may lack
both headers, which the source comment on message.py:291-294 records as a
parse failure). -/
structure ParsedMime where
  mime_version : Option Str
  clean_subject : Option Str
  from_addr : List AddrPair
  sender_addr : List AddrPair
  reply_to : List AddrPair
  to_addr : List AddrPair
  cc_addr : List AddrPair
  bcc_addr : List AddrPair
  in_reply_to : Option Str
  message_id : Option Str
  inbox_uid : Option Str
  references_hdr : Option Str
  internal_date : Except PyExn Nat
  headers_items : List (Str × Str)
  root : MimePart

/-- The full input of one `create_from_synced` invocation: the caller-supplied
arguments (all required ones present and well-typed, matching the guard at
message.py:191-198) plus the outcomes of every external capability consumed
during the run: the tokenizer, the per-walk-index calendar importer, the
feature flags, the configured oversize threshold, the SHA-256 digest, and the
HTML helpers. -/
structure SyncInput where
  namespace_id : Nat
  account_id : Nat
  mid : Nat
  folder_name : Str
  received_date : Option Nat
  body_string : Str
  tokenize : Except PyExn ParsedMime
  cal_import : Nat → Except PyExn Unit
  feature_flags : List Str
  max_len : Nat
  hash_fn : Str → Str
  strip_tags : Str → Str
  plaintext2html : Str → Str
  now : Nat

/-- The `@validates('subject')` hook (message.py:162-168): subjects longer
than 255 characters are truncated on assignment. -/
def validate_subject : Option Str → Option Str
  | none => none
  | some v => if 255 < v.length then some (v.take 255) else some v

/-- `received_date if received_date else get_internaldate(...)`
(message.py:234-236). -/
def recv_date (inp : SyncInput) (parsed : ParsedMime) : Except PyExn Nat :=
  match inp.received_date with
  | some d => .ok d
  | none => parsed.internal_date

/-- Model of `json.dumps(parsed.headers.items())` (message.py:253).  The exact
serialization is immaterial to every claim — only the existence and position
of the headers Part matter — so it is modelled as concatenating names and
values separated by newlines. -/
def json_dumps_headers (items : List (Str × Str)) : Str :=
  items.foldr (fun pr acc => pr.1 ++ '\n' :: pr.2 ++ '\n' :: acc) []

/-- The per-part loop of `create_from_synced` (message.py:258-286): `i` is
incremented for every walked part, multipart sub-parts are skipped, leaves are
delegated to `_parse_mimepart`, and `text/calendar` leaves additionally invoke
the calendar importer when the `ical_autoimport` feature flag is set; importer
errors of the classes listed at message.py:274-278 are swallowed, any other
class propagates. -/
def process_walk (inp : SyncInput) : List MimePart → Nat → MsgState →
    MsgState × Option PyExn
  | [], _, m => (m, none)
  | p :: rest, i, m =>
    let j := i + 1
    if p.is_multipart then process_walk inp rest j m
    else
      let m' := _parse_mimepart inp.now inp.namespace_id m p j
      if ("ical_autoimport".toList) ∈ inp.feature_flags ∧
          p.ctype.format_type = "text".toList ∧ p.ctype.subtype = "calendar".toList then
        match inp.cal_import j with
        | .ok _ => process_walk inp rest j m'
        | .error e =>
          if calendar_caught e then process_walk inp rest j m' else (m', some e)
      else process_walk inp rest j m'

/-- The state built by the first statements of the `try` block
(message.py:204-210): the full-body Block (content type `text/plain`) and the
namespace id. -/
def init_msg (inp : SyncInput) : MsgState :=
  { full_body := some
      { namespace_id := some inp.namespace_id
        content_type := some ("text/plain".toList)
        filename := none
        data := inp.body_string }
    namespace_id := some inp.namespace_id }

/-- The state after the scalar/header-field assignments that precede the
received-date computation (message.py:220-232), in source order. -/
def header_fields_msg (inp : SyncInput) (parsed : ParsedMime) : MsgState :=
  { init_msg inp with
    data_sha256 := some (inp.hash_fn inp.body_string)
    subject := validate_subject parsed.clean_subject
    from_addr := some parsed.from_addr
    sender_addr := some parsed.sender_addr
    reply_to := some parsed.reply_to
    to_addr := some parsed.to_addr
    cc_addr := some parsed.cc_addr
    bcc_addr := some parsed.bcc_addr
    in_reply_to := parsed.in_reply_to
    message_id_header := parsed.message_id }

/-- The synthetic walk-index-0 Part holding all serialized headers
(message.py:250-256). -/
def headers_part (inp : SyncInput) (parsed : ParsedMime) : PartRec :=
  { walk_index := 0
    content_disposition := none
    content_id := none
    block :=
      { namespace_id := some inp.namespace_id
        content_type := none
        filename := none
        data := json_dumps_headers parsed.headers_items } }

/-- The state after the received-date, `inbox_uid`, references and size
assignments and the creation of the headers Part (message.py:234-256),
immediately before the part-walk loop. -/
def pre_walk_msg (inp : SyncInput) (parsed : ParsedMime) (rd : Nat) : MsgState :=
  { header_fields_msg inp parsed with
    received_date := some rd
    inbox_uid := parsed.inbox_uid
    references := some (parse_references (parsed.references_hdr.getD [])
      (parsed.in_reply_to.getD []))
    size := some inp.body_string.length
    parts := (header_fields_msg inp parsed).parts ++ [headers_part inp parsed] }

/-- The body of the `try` block of `create_from_synced` (message.py:202-288),
returning the message state together with the exception class that escaped,
if any.  Field assignments follow the source order, so the partial state at
each failure point matches the source. -/
def try_block (inp : SyncInput) : MsgState × Option PyExn :=
  match inp.tokenize with
  | .error e => (init_msg inp, some e)
  | .ok parsed =>
    match recv_date inp parsed with
    | .error e => (header_fields_msg inp parsed, some e)
    | .ok rd =>
      match process_walk inp (msgWalk parsed.root) 0 (pre_walk_msg inp parsed rd) with
      | (m', some e) => (m', some e)
      | (m', none) => calculate_sanitized_body inp.strip_tags inp.plaintext2html m'

/-- Modelled from the spec: `json_field_too_long` lives in
`inbox.sqlalchemy_ext.util`, which is not under src/.  Per §4.1 step 8 a field
is too long when its serialized size exceeds a configured maximum; the JSON
serialization length of an address list is modelled as the sum of the
component lengths plus per-entry and envelope overhead (an unset field
serializes as a bare `null`-sized token). -/
def addr_ser_len (v : Option (List AddrPair)) : Nat :=
  match v with
  | none => 4
  | some l => (l.map (fun pr => pr.1.length + pr.2.length + 6)).sum + 2

/-- Modelled from the spec: serialization length of the references list,
under the same conventions as `addr_ser_len`. -/
def refs_ser_len (v : Option (List Str)) : Nat :=
  match v with
  | none => 4
  | some l => (l.map (fun s => s.length + 4)).sum + 2

/-- Modelled from the spec: the oversize test for an address-list field. -/
def json_field_too_long_addrs (max_len : Nat) (v : Option (List AddrPair)) : Bool :=
  max_len < addr_ser_len v

/-- Modelled from the spec: the oversize test for the references field. -/
def json_field_too_long_refs (max_len : Nat) (v : Option (List Str)) : Bool :=
  max_len < refs_ser_len v

/-- The post-pass of `create_from_synced` (message.py:305-314): for each of
`to_addr`, `cc_addr`, `bcc_addr`, `references` in turn, if the field
serializes too long, empty it and run `_mark_error`. -/
def post_pass (inp : SyncInput) (m : MsgState) : MsgState :=
  let m := if json_field_too_long_addrs inp.max_len m.to_addr then
    _mark_error inp.now { m with to_addr := some [] } else m
  let m := if json_field_too_long_addrs inp.max_len m.cc_addr then
    _mark_error inp.now { m with cc_addr := some [] } else m
  let m := if json_field_too_long_addrs inp.max_len m.bcc_addr then
    _mark_error inp.now { m with bcc_addr := some [] } else m
  if json_field_too_long_refs inp.max_len m.references then
    _mark_error inp.now { m with references := some [] } else m

/-- Source `Message.create_from_synced` (message.py:170-316): run the `try`
body; a raised exception of one of the caught classes triggers
`_mark_error` on the partial message, any other class propagates (modelled as
`Except.error`).  The oversize post-pass runs on every non-raising path, and
the (possibly degraded) message is returned. -/
def create_from_synced (inp : SyncInput) : Except PyExn MsgState :=
  match try_block inp with
  | (m, none) => .ok (post_pass inp m)
  | (m, some e) =>
    if outer_caught e then .ok (post_pass inp (_mark_error inp.now m))
    else .error e

/-- `v if v else []`: the truthiness coercion used when chaining the address
fields in `participants`. -/
def optList (v : Option (List α)) : List α := v.getD []

/-- The concatenated `from`/`to`/`cc`/`bcc` chain built at
message.py:443-456 (skipping falsy fields is equivalent to concatenating
with the empty list). -/
def addr_chain (m : MsgState) : List AddrPair :=
  optList m.from_addr ++ optList m.to_addr ++ optList m.cc_addr ++ optList m.bcc_addr

/-- The set (modelled as a keep-first deduplicated list) of stripped phrases
recorded for one address by the `deduped_participants` defaultdict
(message.py:456-457). -/
def phrases_of (chain : List AddrPair) (address : Str) : List Str :=
  dedup_first ((chain.filter (fun pr => pr.2 = address)).map (fun pr => pyStrip pr.1))

/-- The addresses occurring in the chain (the keys of the defaultdict). -/
def addresses_of (chain : List AddrPair) : List Str :=
  dedup_first (chain.map (fun pr => pr.2))

/-- Source `Message.participants` (message.py:433-464): per address, emit each
recorded phrase unless it is the empty phrase and other phrases exist for the
same address (`if phrase != '' or len(phrases) == 1`).  Python's unspecified
dict/set iteration order is fixed to first-occurrence order; the claims about
`participants` are membership statements, for which the order is immaterial. -/
def participants (m : MsgState) : List AddrPair :=
  let chain := addr_chain m
  (addresses_of chain).flatMap (fun address =>
    (phrases_of chain address).filterMap (fun phrase =>
      if phrase ≠ [] ∨ (phrases_of chain address).length = 1 then some (phrase, address)
      else none))

/-! ### Supporting lemmas: whitespace splitting and joining -/

/-- Two adjacent snippet characters are never both whitespace. -/
def noWsPair (a b : Char) : Prop := ¬ (pyIsSpace a = true ∧ pyIsSpace b = true)

lemma splitWsAux_spacefree (s : Str) :
    ∀ w ∈ splitWsAux s, ∀ c ∈ w, pyIsSpace c = false := by
  induction s with
  | nil => simp [splitWsAux]
  | cons c cs ih =>
    intro w hw
    have hstep : splitWsAux (c :: cs) = splitWsStep c (splitWsAux cs) := rfl
    rw [hstep] at hw
    unfold splitWsStep at hw
    by_cases hc : pyIsSpace c
    · rw [if_pos hc] at hw
      rcases List.mem_cons.mp hw with hw | hw
      · subst hw
        simp
      · exact ih w hw
    · rw [if_neg hc] at hw
      match hacc : splitWsAux cs with
      | [] =>
        rw [hacc] at hw
        simp only [List.mem_singleton] at hw
        subst hw
        intro x hx
        simp only [List.mem_singleton] at hx
        subst hx
        simpa using hc
      | v :: vs =>
        rw [hacc] at hw
        simp only [List.mem_cons] at hw
        have hv : v ∈ splitWsAux cs := by
          rw [hacc]
          exact List.mem_cons_self v vs
        rcases hw with hw | hw
        · subst hw
          intro x hx
          rcases List.mem_cons.mp hx with hx | hx
          · subst hx
            simpa using hc
          · exact ih v hv x hx
        · have hwm : w ∈ splitWsAux cs := by
            rw [hacc]
            exact List.mem_cons_of_mem v hw
          exact ih w hwm

lemma pySplit_words {s : Str} {w : Str} (hw : w ∈ pySplit s) :
    w ≠ [] ∧ ∀ c ∈ w, pyIsSpace c = false := by
  unfold pySplit at hw
  have h := List.mem_filter.mp hw
  refine ⟨by simpa using h.2, splitWsAux_spacefree s w h.1⟩

lemma chain'_of_spacefree {w : Str} (h : ∀ c ∈ w, pyIsSpace c = false) :
    List.Chain' noWsPair w := by
  induction w with
  | nil => simp
  | cons c cs ih =>
    rw [List.chain'_cons']
    refine ⟨?_, ih (fun x hx => h x (List.mem_cons_of_mem c hx))⟩
    intro y _
    have hc := h c (List.mem_cons_self c cs)
    simp [noWsPair, hc]

lemma joinWords_chain' {ws : List Str}
    (h : ∀ w ∈ ws, w ≠ [] ∧ ∀ c ∈ w, pyIsSpace c = false) :
    List.Chain' noWsPair (joinWords ws) ∧
      ∀ x ∈ (joinWords ws).head?, pyIsSpace x = false := by
  induction ws with
  | nil => simp [joinWords]
  | cons w ws ih =>
    rcases h w (List.mem_cons_self w ws) with ⟨hne, hsf⟩
    match ws with
    | [] =>
      refine ⟨chain'_of_spacefree hsf, ?_⟩
      intro x hx
      exact hsf x (List.mem_of_mem_head? hx)
    | v :: vs =>
      have ih' := ih (fun u hu => h u (List.mem_cons_of_mem w hu))
      have hjoin : joinWords (w :: v :: vs) = w ++ ' ' :: joinWords (v :: vs) := rfl
      rw [hjoin]
      constructor
      · rw [List.chain'_append]
        refine ⟨chain'_of_spacefree hsf, ?_, ?_⟩
        · rw [List.chain'_cons']
          exact ⟨fun y hy => by
            have hys := ih'.2 y hy
            simp [noWsPair, hys], ih'.1⟩
        · intro x hx y hy
          have hxs := hsf x (List.mem_of_mem_getLast? hx)
          simp [noWsPair, hxs]
      · intro x hx
        cases w with
        | nil => exact absurd rfl hne
        | cons a w' =>
          simp only [List.cons_append, List.head?_cons, Option.mem_def,
            Option.some.injEq] at hx
          subst hx
          exact hsf a (List.mem_cons_self a w')

lemma mem_pyStrip {s : Str} {c : Char} (h : c ∈ pyStrip s) : c ∈ s := by
  unfold pyStrip at h
  rw [List.mem_reverse] at h
  have h1 := (List.dropWhile_sublist pyIsSpace).mem h
  rw [List.mem_reverse] at h1
  exact (List.dropWhile_sublist pyIsSpace).mem h1

lemma cr_not_mem_replace_cr (s : Str) : '\r' ∉ replace_cr s := by
  intro h
  rcases List.mem_map.mp h with ⟨c, _, hc⟩
  by_cases hcr : c = '\r' <;> simp [hcr] at hc

lemma cr_not_mem_normalize (s : Str) : '\r' ∉ normalize_newlines s :=
  cr_not_mem_replace_cr _

/-! ### C5: snippet computation -/

/-- C5: for every input text the snippet equals the whitespace-collapsed text
truncated to 191 characters (collapse happens before truncation), hence it is
at most 191 characters long and never contains two adjacent whitespace
characters. -/
theorem snippet_collapsed_truncated (text : Str) :
    calculate_plaintext_snippet text = (joinWords (pySplit text)).take 191 ∧
    (calculate_plaintext_snippet text).length ≤ 191 ∧
    List.Chain' noWsPair (calculate_plaintext_snippet text) := by
  refine ⟨rfl, ?_, ?_⟩
  · unfold calculate_plaintext_snippet SNIPPET_LENGTH
    rw [List.length_take]
    exact min_le_left _ _
  · unfold calculate_plaintext_snippet
    exact (joinWords_chain' (fun w hw => pySplit_words hw)).1.take _

/-! ### C7: filename truncation -/

/-- C7: for every filename longer than 64 characters, `_trim_filename`
returns a string of exactly 64 characters whose last 8 characters equal the
original's last 8 characters. -/
theorem trim_filename_spec (s : Str) (h : 64 < s.length) :
    ∃ t, _trim_filename (some s) = some t ∧ t.length = 64 ∧
      t.drop (t.length - 8) = s.drop (s.length - 8) := by
  have hne : s ≠ [] := by
    intro hnil
    rw [hnil] at h
    simp at h
  refine ⟨s.take 56 ++ s.drop (s.length - 8), ?_, ?_, ?_⟩
  · show (if s ≠ [] ∧ 64 < s.length then some (s.take (64 - 8) ++ s.drop (s.length - 8))
      else some s) = some (s.take 56 ++ s.drop (s.length - 8))
    rw [if_pos ⟨hne, h⟩]
  · rw [List.length_append, List.length_take, List.length_drop]
    omega
  · have hlen : (s.take 56 ++ s.drop (s.length - 8)).length = 64 := by
      rw [List.length_append, List.length_take, List.length_drop]
      omega
    rw [hlen]
    have h56 : (s.take 56).length = 56 := by
      rw [List.length_take]
      omega
    calc (s.take 56 ++ s.drop (s.length - 8)).drop (64 - 8)
        = (s.take 56 ++ s.drop (s.length - 8)).drop (s.take 56).length := by rw [h56]
      _ = s.drop (s.length - 8) := List.drop_left _ _

/-- C7 witness: a concrete 65-character filename is truncated to 64
characters ending in the original's last 8 characters. -/
theorem trim_filename_spec_witness :
    64 < (List.replicate 57 'a' ++ "12345678".toList).length ∧
    ∃ t, _trim_filename (some (List.replicate 57 'a' ++ "12345678".toList)) = some t ∧
      t.length = 64 ∧
      t.drop (t.length - 8) =
        (List.replicate 57 'a' ++ "12345678".toList).drop
          ((List.replicate 57 'a' ++ "12345678".toList).length - 8) :=
  ⟨by decide, trim_filename_spec (List.replicate 57 'a' ++ "12345678".toList) (by decide)⟩

/-! ### C2: the error-recovery marker -/

/-- A message state in which `size` has already been set meaningfully
(to 42) and the remaining recovery-relevant fields are also populated. -/
def c2_state : MsgState :=
  { size := some 42
    received_date := some 7
    subject := some ("s".toList)
    sanitized_body := some ("b".toList)
    snippet := some ("n".toList) }

/-- C2 counterexample: the claim says `_mark_error` sets `size` to 0 only if
`size` is not already set meaningfully and never overwrites an
already-parsed field, but on a state whose `size` is already 42 it
overwrites it with 0. -/
theorem mark_error_overwrites_size :
    c2_state.size = some 42 ∧ (_mark_error 0 c2_state).size = some 0 ∧
      (_mark_error 0 c2_state).size ≠ c2_state.size := by
  refine ⟨rfl, rfl, ?_⟩
  decide

/-- C2 amended: `_mark_error` sets `decode_error`, zeroes `size`
unconditionally (overwriting any previously computed size), fills
`received_date`, `sanitized_body` and `snippet` only when still unset,
leaves every other field untouched, and is idempotent. -/
theorem mark_error_amended_spec (now now' : Nat) (m : MsgState) :
    (_mark_error now m).decode_error = true ∧
    (_mark_error now m).size = some 0 ∧
    (_mark_error now m).received_date =
      (if m.received_date = none then some now else m.received_date) ∧
    (_mark_error now m).sanitized_body =
      (if m.sanitized_body = none then some [] else m.sanitized_body) ∧
    (_mark_error now m).snippet =
      (if m.snippet = none then some [] else m.snippet) ∧
    (_mark_error now m).subject = m.subject ∧
    (_mark_error now m).from_addr = m.from_addr ∧
    (_mark_error now m).sender_addr = m.sender_addr ∧
    (_mark_error now m).reply_to = m.reply_to ∧
    (_mark_error now m).to_addr = m.to_addr ∧
    (_mark_error now m).cc_addr = m.cc_addr ∧
    (_mark_error now m).bcc_addr = m.bcc_addr ∧
    (_mark_error now m).in_reply_to = m.in_reply_to ∧
    (_mark_error now m).message_id_header = m.message_id_header ∧
    (_mark_error now m).inbox_uid = m.inbox_uid ∧
    (_mark_error now m).references = m.references ∧
    (_mark_error now m).parts = m.parts ∧
    (_mark_error now m).namespace_id = m.namespace_id ∧
    (_mark_error now m).full_body = m.full_body ∧
    (_mark_error now m).data_sha256 = m.data_sha256 ∧
    _mark_error now' (_mark_error now m) = _mark_error now m := by
  unfold _mark_error
  refine ⟨rfl, rfl, rfl, rfl, rfl, rfl, rfl, rfl, rfl, rfl, rfl, rfl, rfl, rfl,
    rfl, rfl, rfl, rfl, rfl, rfl, ?_⟩
  by_cases hr : m.received_date = none <;>
    by_cases hb : m.sanitized_body = none <;>
      by_cases hn : m.snippet = none <;>
        simp [hr, hb, hn]

/-! ### Supporting lemmas: unfolding `_parse_mimepart` and body selection -/

/-- Unfolding `_parse_mimepart` on a leaf part. -/
lemma parse_mimepart_leaf (now namespace_id : Nat) (m : MsgState) (ct : CType)
    (disposition disposition_filename content_id body : Option Str) (index : Nat) :
    _parse_mimepart now namespace_id m
        (.leaf ct disposition disposition_filename content_id body) index =
      (if disposition ≠ none ∧ disposition ≠ some ("inline".toList) ∧
          disposition ≠ some ("attachment".toList) then
        _mark_error now m
      else
        { m with parts := m.parts ++ [{
            walk_index := index
            content_disposition := disposition
            content_id := content_id
            block := {
              namespace_id := some namespace_id
              content_type := some ct.value
              filename :=
                if disposition = some ("attachment".toList) then
                  _trim_filename disposition_filename
                else _trim_filename ct.name_param
              data :=
                match body with
                | none => []
                | some b =>
                  if ("text".toList).isPrefixOf ct.value then normalize_newlines b
                  else b } }] }) := rfl

/-- Unfolding `calculate_sanitized_body` on a message with parts. -/
lemma calculate_sanitized_body_eq (st p2h : Str → Str) (m : MsgState)
    (hne : m.parts ≠ []) :
    calculate_sanitized_body st p2h m =
      (match (m.parts.find? (fun q => q.block.content_type = some ("text/html".toList))).map
          (fun q => pyStrip q.block.data) with
      | some h =>
        if h ≠ [] then
          if '\r' ∈ h then (m, some .AssertionError)
          else ({ m with snippet := some (calculate_html_snippet st h)
                         sanitized_body := some h }, none)
        else (plain_branch p2h m
          ((m.parts.find? (fun q => q.block.content_type = some ("text/plain".toList))).map
            (fun q => pyStrip q.block.data)), none)
      | none => (plain_branch p2h m
          ((m.parts.find? (fun q => q.block.content_type = some ("text/plain".toList))).map
            (fun q => pyStrip q.block.data)), none)) := by
  unfold calculate_sanitized_body message_body
  rw [if_neg hne]

/-- Unfolding the plaintext branch on a present plaintext body. -/
lemma plain_branch_some (p2h : Str → Str) (m : MsgState) (p : Str) :
    plain_branch p2h m (some p) =
      (if p ≠ [] then
        { m with snippet := some (calculate_plaintext_snippet p)
                 sanitized_body := some (p2h p) }
      else { m with sanitized_body := some [], snippet := some [] }) := rfl

/-- Unfolding the plaintext branch on an absent plaintext body. -/
lemma plain_branch_none (p2h : Str → Str) (m : MsgState) :
    plain_branch p2h m none =
      { m with sanitized_body := some [], snippet := some [] } := rfl

/-! ### C8: filename resolution for leaf parts -/

/-- C8: for a leaf part whose disposition is recognized (absent, `inline` or
`attachment`), `_parse_mimepart` attaches exactly one new Part whose block
filename is the trimmed `Content-Disposition` `filename` parameter when the
disposition is `attachment`, and the trimmed content-type `name` parameter
otherwise. -/
theorem parse_mimepart_filename (now namespace_id : Nat) (m : MsgState) (ct : CType)
    (disposition disposition_filename content_id body : Option Str) (index : Nat)
    (h : disposition = none ∨ disposition = some ("inline".toList) ∨
      disposition = some ("attachment".toList)) :
    ∃ pr, (_parse_mimepart now namespace_id m
        (.leaf ct disposition disposition_filename content_id body) index).parts =
        m.parts ++ [pr] ∧
      pr.walk_index = index ∧
      pr.block.filename =
        (if disposition = some ("attachment".toList) then _trim_filename disposition_filename
         else _trim_filename ct.name_param) := by
  have hrej : ¬ (disposition ≠ none ∧ disposition ≠ some ("inline".toList) ∧
      disposition ≠ some ("attachment".toList)) := by
    rcases h with h | h | h <;> simp [h]
  rw [parse_mimepart_leaf, if_neg hrej]
  exact ⟨_, rfl, rfl, rfl⟩

/-- C8 witness: an `attachment` leaf with a long `Content-Disposition`
filename resolves to the trimmed disposition filename, ignoring the
content-type `name` parameter. -/
theorem parse_mimepart_filename_witness :
    ∃ pr, (_parse_mimepart 0 1 {}
        (.leaf ⟨"application".toList, "pdf".toList, some ("ctname.pdf".toList)⟩
          (some ("attachment".toList)) (some ("report.pdf".toList)) none none) 1).parts =
        ({} : MsgState).parts ++ [pr] ∧
      pr.walk_index = 1 ∧
      pr.block.filename =
        (if (some ("attachment".toList) : Option Str) = some ("attachment".toList) then
          _trim_filename (some ("report.pdf".toList))
         else _trim_filename (some ("ctname.pdf".toList))) :=
  parse_mimepart_filename 0 1 {} ⟨"application".toList, "pdf".toList, some ("ctname.pdf".toList)⟩
    (some ("attachment".toList)) (some ("report.pdf".toList)) none none 1
    (Or.inr (Or.inr rfl))

/-! ### C10 and C6: body selection -/

/-- C10: when the first `text/html` part of a message strips to the empty
string, body selection behaves exactly as if no HTML part existed: it takes
the plaintext branch (first `text/plain` part with non-empty stripped
content, else empty outputs), and no assertion fires. -/
theorem whitespace_html_falls_through (strip_tags plaintext2html : Str → Str)
    (m : MsgState) (p : PartRec)
    (hfind : m.parts.find? (fun q => q.block.content_type = some ("text/html".toList)) = some p)
    (hws : pyStrip p.block.data = []) :
    calculate_sanitized_body strip_tags plaintext2html m =
      (plain_branch plaintext2html m
        ((m.parts.find? (fun q => q.block.content_type = some ("text/plain".toList))).map
          (fun q => pyStrip q.block.data)), none) := by
  have hne : m.parts ≠ [] := by
    intro hnil
    rw [hnil] at hfind
    simp at hfind
  rw [calculate_sanitized_body_eq strip_tags plaintext2html m hne, hfind]
  simp only [Option.map_some', hws]
  rw [if_neg (fun hcon => hcon rfl)]

/-- A message whose only `text/html` part is whitespace and whose
`text/plain` part is `"hi"`. -/
def c10_msg : MsgState :=
  { parts := [
      { walk_index := 1, content_disposition := none, content_id := none
        block := { namespace_id := some 1, content_type := some ("text/html".toList)
                   filename := none, data := "  ".toList } },
      { walk_index := 2, content_disposition := none, content_id := none
        block := { namespace_id := some 1, content_type := some ("text/plain".toList)
                   filename := none, data := "hi".toList } }] }

/-- The whitespace-only HTML part of `c10_msg`. -/
def c10_html_part : PartRec :=
  { walk_index := 1, content_disposition := none, content_id := none
    block := { namespace_id := some 1, content_type := some ("text/html".toList)
               filename := none, data := "  ".toList } }

/-- C10 witness: instantiating the fall-through theorem at `c10_msg`. -/
theorem whitespace_html_falls_through_witness :
    calculate_sanitized_body (fun s => s) (fun s => s) c10_msg =
      (plain_branch (fun s => s) c10_msg
        ((c10_msg.parts.find? (fun q => q.block.content_type = some ("text/plain".toList))).map
          (fun q => pyStrip q.block.data)), none) :=
  whitespace_html_falls_through (fun s => s) (fun s => s) c10_msg c10_html_part
    (by decide) (by decide)

/-- C6 counterexample: the claim says that whenever a `text/html` part exists
its HTML is stored as-is as `sanitized_body`; on a message whose first (and
only) `text/html` part is whitespace-only (`"  "`) and whose `text/plain`
part is `"hi"`, the code instead stores the converted plaintext. -/
theorem html_part_not_always_selected :
    (calculate_sanitized_body (fun s => s) (fun s => s) c10_msg).1.sanitized_body =
      some ("hi".toList) ∧
    some ("hi".toList) ≠ some ("  ".toList) := by
  constructor
  · decide
  · decide

/-- C6 amended: body selection uses the first `text/html` part whose decoded,
whitespace-stripped content is non-empty (storing the stripped HTML and
deriving the snippet via `strip_tags`); otherwise the first `text/plain` part
with non-empty stripped content (converted via `plaintext2html`, snippet from
the plaintext); otherwise both outputs are empty. -/
theorem sanitized_body_selection (st p2h : Str → Str) (m : MsgState) :
    (∀ h, ((m.parts.find? (fun q => q.block.content_type = some ("text/html".toList))).map
        (fun q => pyStrip q.block.data)) = some h → h ≠ [] → '\r' ∉ h →
      calculate_sanitized_body st p2h m =
        ({ m with snippet := some (calculate_html_snippet st h)
                  sanitized_body := some h }, none)) ∧
    (∀ hd, ((m.parts.find? (fun q => q.block.content_type = some ("text/html".toList))).map
        (fun q => pyStrip q.block.data)) = hd → (hd = none ∨ hd = some []) →
      m.parts ≠ [] →
      ∀ p, ((m.parts.find? (fun q => q.block.content_type = some ("text/plain".toList))).map
        (fun q => pyStrip q.block.data)) = some p → p ≠ [] →
      calculate_sanitized_body st p2h m =
        ({ m with snippet := some (calculate_plaintext_snippet p)
                  sanitized_body := some (p2h p) }, none)) ∧
    (∀ hd pd, ((m.parts.find? (fun q => q.block.content_type = some ("text/html".toList))).map
        (fun q => pyStrip q.block.data)) = hd → (hd = none ∨ hd = some []) →
      ((m.parts.find? (fun q => q.block.content_type = some ("text/plain".toList))).map
        (fun q => pyStrip q.block.data)) = pd → (pd = none ∨ pd = some []) →
      m.parts ≠ [] →
      calculate_sanitized_body st p2h m =
        ({ m with sanitized_body := some [], snippet := some [] }, none)) := by
  refine ⟨?_, ?_, ?_⟩
  · intro h hfind hne hcr
    have hpne : m.parts ≠ [] := by
      intro hnil
      rw [hnil] at hfind
      simp at hfind
    rw [calculate_sanitized_body_eq st p2h m hpne, hfind]
    show (if h ≠ [] then _ else _) = _
    rw [if_pos hne, if_neg hcr]
  · intro hd hfind hcase hpne p hplain hpnonempty
    rw [calculate_sanitized_body_eq st p2h m hpne, hfind, hplain]
    rcases hcase with hc | hc <;> subst hc
    · rw [plain_branch_some, if_pos hpnonempty]
    · show (if ([] : Str) ≠ [] then _ else _) = _
      rw [if_neg (fun hcon => hcon rfl), plain_branch_some, if_pos hpnonempty]
  · intro hd pd hfind hcase hplain hpcase hpne
    rw [calculate_sanitized_body_eq st p2h m hpne, hfind, hplain]
    rcases hcase with hc | hc <;> subst hc <;> rcases hpcase with hp | hp <;> subst hp
    · rw [plain_branch_none]
    · rw [plain_branch_some, if_neg (fun hcon => hcon rfl)]
    · show (if ([] : Str) ≠ [] then _ else _) = _
      rw [if_neg (fun hcon => hcon rfl), plain_branch_none]
    · show (if ([] : Str) ≠ [] then _ else _) = _
      rw [if_neg (fun hcon => hcon rfl), plain_branch_some,
        if_neg (fun hcon => hcon rfl)]

/-- A message with a single non-empty `text/html` part. -/
def c6_msg : MsgState :=
  { parts := [
      { walk_index := 1, content_disposition := none, content_id := none
        block := { namespace_id := some 1, content_type := some ("text/html".toList)
                   filename := none, data := "<b>x</b>".toList } }] }

/-- C6 amended witness: instantiating the selection theorem at `c6_msg`. -/
theorem sanitized_body_selection_witness :
    calculate_sanitized_body (fun s => s) (fun s => s) c6_msg =
      ({ c6_msg with
          snippet := some (calculate_html_snippet (fun s => s) ("<b>x</b>".toList))
          sanitized_body := some ("<b>x</b>".toList) }, none) :=
  (sanitized_body_selection (fun s => s) (fun s => s) c6_msg).1 ("<b>x</b>".toList)
    (by decide) (by decide) (by decide)

/-! ### C9: participant deduplication -/

lemma mem_dedup_first_aux [DecidableEq α] (l : List α) :
    ∀ (seen : List α) (a : α), a ∈ dedup_first_aux seen l ↔ a ∈ l ∧ a ∉ seen := by
  induction l with
  | nil => intro seen a; simp [dedup_first_aux]
  | cons x xs ih =>
    intro seen a
    unfold dedup_first_aux
    by_cases hx : x ∈ seen
    · rw [if_pos hx, ih]
      constructor
      · intro ⟨h1, h2⟩
        exact ⟨List.mem_cons_of_mem x h1, h2⟩
      · intro ⟨h1, h2⟩
        rcases List.mem_cons.mp h1 with h1 | h1
        · subst h1
          exact absurd hx h2
        · exact ⟨h1, h2⟩
    · rw [if_neg hx]
      constructor
      · intro h
        rcases List.mem_cons.mp h with h | h
        · subst h
          exact ⟨List.mem_cons_self a xs, hx⟩
        · have := (ih (x :: seen) a).mp h
          refine ⟨List.mem_cons_of_mem x this.1, fun hc => this.2 (List.mem_cons_of_mem x hc)⟩
      · intro ⟨h1, h2⟩
        rcases List.mem_cons.mp h1 with h1 | h1
        · subst h1
          exact List.mem_cons_self a _
        · by_cases hax : a = x
          · subst hax
            exact List.mem_cons_self a _
          · exact List.mem_cons_of_mem x ((ih (x :: seen) a).mpr
              ⟨h1, fun hc => by
                rcases List.mem_cons.mp hc with hc | hc
                · exact hax hc
                · exact h2 hc⟩)

lemma mem_dedup_first [DecidableEq α] (l : List α) (a : α) :
    a ∈ dedup_first l ↔ a ∈ l := by
  unfold dedup_first
  rw [mem_dedup_first_aux]
  simp

lemma dedup_first_aux_eq_nil [DecidableEq α] (l : List α) :
    ∀ seen : List α, (∀ x ∈ l, x ∈ seen) → dedup_first_aux seen l = [] := by
  induction l with
  | nil => intro seen _; rfl
  | cons x xs ih =>
    intro seen h
    unfold dedup_first_aux
    rw [if_pos (h x (List.mem_cons_self x xs))]
    exact ih seen (fun y hy => h y (List.mem_cons_of_mem x hy))

lemma dedup_first_eq_singleton [DecidableEq α] (l : List α) (b : α) :
    dedup_first l = [b] ↔ l ≠ [] ∧ ∀ x ∈ l, x = b := by
  constructor
  · intro h
    constructor
    · intro hnil
      subst hnil
      simp [dedup_first, dedup_first_aux] at h
    · intro x hx
      have := (mem_dedup_first l x).mpr hx
      rw [h] at this
      simpa using this
  · intro ⟨hne, hall⟩
    match l, hne with
    | x :: xs, _ =>
      have hxb : x = b := hall x (List.mem_cons_self x xs)
      subst hxb
      show dedup_first_aux [] (x :: xs) = [x]
      unfold dedup_first_aux
      rw [if_neg (by simp)]
      rw [dedup_first_aux_eq_nil xs [x]
        (fun y hy => by
          have := hall y (List.mem_cons_of_mem x hy)
          subst this
          exact List.mem_cons_self y [])]

lemma mem_addresses_of (chain : List AddrPair) (a : Str) :
    a ∈ addresses_of chain ↔ ∃ pr ∈ chain, pr.2 = a := by
  unfold addresses_of
  rw [mem_dedup_first]
  simp [List.mem_map, eq_comm]

lemma mem_phrases_of (chain : List AddrPair) (a ph : Str) :
    ph ∈ phrases_of chain a ↔ ∃ pr ∈ chain, pr.2 = a ∧ pyStrip pr.1 = ph := by
  unfold phrases_of
  rw [mem_dedup_first]
  constructor
  · intro h
    rcases List.mem_map.mp h with ⟨pr, hpr, heq⟩
    have hf := List.mem_filter.mp hpr
    exact ⟨pr, hf.1, by simpa using hf.2, heq⟩
  · intro ⟨pr, hmem, h2, h1⟩
    exact List.mem_map.mpr ⟨pr, List.mem_filter.mpr ⟨hmem, by simpa using h2⟩, h1⟩

lemma mem_participants (m : MsgState) (ph a : Str) :
    (ph, a) ∈ participants m ↔
      a ∈ addresses_of (addr_chain m) ∧ ph ∈ phrases_of (addr_chain m) a ∧
        (ph ≠ [] ∨ (phrases_of (addr_chain m) a).length = 1) := by
  unfold participants
  constructor
  · intro h
    rcases List.mem_flatMap.mp h with ⟨ad, had, hmem⟩
    rcases List.mem_filterMap.mp hmem with ⟨phr, hphr, heq⟩
    by_cases hc : phr ≠ [] ∨ (phrases_of (addr_chain m) ad).length = 1
    · rw [if_pos hc] at heq
      have hpair := Option.some.inj heq
      simp only [Prod.mk.injEq] at hpair
      obtain ⟨h1, h2⟩ := hpair
      subst h1
      subst h2
      exact ⟨had, hphr, hc⟩
    · rw [if_neg hc] at heq
      exact absurd heq (by simp)
  · intro ⟨ha, hph, hcond⟩
    exact List.mem_flatMap.mpr ⟨a, ha,
      List.mem_filterMap.mpr ⟨ph, hph, by rw [if_pos hcond]⟩⟩

/-- C9: `participants` drops the empty-phrase pair for an address exactly when
a phrase with non-whitespace content exists for that address: `([], a)` is
returned iff `a` occurs and every phrase recorded for `a` strips to the empty
string, and a non-empty stripped phrase is returned iff it occurs for `a`.
(The code strips phrases before deduplicating, so "empty phrase" means
"phrase that strips to empty", and returned phrases are the stripped ones.) -/
theorem participants_dedup (m : MsgState) :
    (∀ a, (([], a) ∈ participants m ↔
      (∃ pr ∈ addr_chain m, pr.2 = a) ∧
        ∀ pr ∈ addr_chain m, pr.2 = a → pyStrip pr.1 = [])) ∧
    (∀ ph a, ph ≠ [] → ((ph, a) ∈ participants m ↔
      ∃ pr ∈ addr_chain m, pr.2 = a ∧ pyStrip pr.1 = ph)) := by
  constructor
  · intro a
    rw [mem_participants]
    constructor
    · intro ⟨ha, hph, hcond⟩
      have hlen : (phrases_of (addr_chain m) a).length = 1 := by
        rcases hcond with hc | hc
        · exact absurd rfl hc
        · exact hc
      rcases List.length_eq_one.mp hlen with ⟨b, hb⟩
      have hbe : b = [] := by
        rw [hb] at hph
        simpa using hph
      subst hbe
      have := (dedup_first_eq_singleton _ _).mp hb
      refine ⟨(mem_addresses_of _ _).mp ha, ?_⟩
      intro pr hpr hpra
      exact this.2 (pyStrip pr.1)
        (List.mem_map.mpr ⟨pr, List.mem_filter.mpr ⟨hpr, by simpa using hpra⟩, rfl⟩)
    · intro ⟨⟨pr, hpr, hpra⟩, hall⟩
      have hsingle : phrases_of (addr_chain m) a = [[]] := by
        apply (dedup_first_eq_singleton _ _).mpr
        constructor
        · intro hnil
          have : pyStrip pr.1 ∈
              (List.filter (fun q => q.2 = a) (addr_chain m)).map (fun q => pyStrip q.1) :=
            List.mem_map.mpr ⟨pr, List.mem_filter.mpr ⟨hpr, by simpa using hpra⟩, rfl⟩
          rw [hnil] at this
          simp at this
        · intro x hx
          rcases List.mem_map.mp hx with ⟨q, hq, hqs⟩
          have hf := List.mem_filter.mp hq
          rw [← hqs]
          exact hall q hf.1 (by simpa using hf.2)
      refine ⟨(mem_addresses_of _ _).mpr ⟨pr, hpr, hpra⟩, ?_, Or.inr ?_⟩
      · unfold phrases_of at hsingle ⊢
        rw [hsingle]
        exact List.mem_singleton.mpr rfl
      · unfold phrases_of at hsingle ⊢
        rw [hsingle]
        rfl
  · intro ph a hne
    rw [mem_participants]
    constructor
    · intro ⟨_, hph, _⟩
      exact (mem_phrases_of _ _ _).mp hph
    · intro h
      rcases h with ⟨pr, hpr, hpra, hstr⟩
      exact ⟨(mem_addresses_of _ _).mpr ⟨pr, hpr, hpra⟩,
        (mem_phrases_of _ _ _).mpr ⟨pr, hpr, hpra, hstr⟩, Or.inl hne⟩

/-- A message whose address `x` occurs with phrases `"  "` (stripping to
empty) and `"Alice"`, and whose address `y` occurs only with `""`. -/
def c9_msg : MsgState :=
  { from_addr := some [("  ".toList, "x".toList), ("Alice".toList, "x".toList)]
    to_addr := some [([], "y".toList)] }

/-- C9 witness: at `c9_msg` the deduplication theorem yields
`("Alice", x)` and `("", y)` as participants. -/
theorem participants_dedup_witness :
    ("Alice".toList, "x".toList) ∈ participants c9_msg ∧
    (([] : Str), "y".toList) ∈ participants c9_msg :=
  ⟨((participants_dedup c9_msg).2 ("Alice".toList) ("x".toList) (by decide)).mpr
      (by decide),
    ((participants_dedup c9_msg).1 ("y".toList)).mpr (by decide)⟩


/-! ### Supporting lemmas: the part-walk loop and the failure boundary -/

/-- Message states whose `text/html` parts carry no raw carriage return
(the normalization invariant asserted by `calculate_sanitized_body`). -/
def html_no_cr (m : MsgState) : Prop :=
  ∀ p ∈ m.parts, p.block.content_type = some ("text/html".toList) → '\r' ∉ p.block.data

/-- A content disposition the part walker accepts. -/
def disp_ok (d : Option Str) : Prop :=
  d = none ∨ d = some ("inline".toList) ∨ d = some ("attachment".toList)

/-- The disposition of a part (`none` for multipart containers). -/
def MimePart.disposition : MimePart → Option Str
  | .leaf _ d _ _ _ => d
  | .multi _ _ => none

lemma mark_error_parts (now : Nat) (m : MsgState) : (_mark_error now m).parts = m.parts := rfl

lemma plain_branch_parts (p2h : Str → Str) (m : MsgState) (pp : Option Str) :
    (plain_branch p2h m pp).parts = m.parts := by
  cases pp with
  | none => rfl
  | some p =>
    rw [plain_branch_some]
    split <;> rfl

lemma calculate_sanitized_body_parts (st p2h : Str → Str) (m : MsgState) :
    (calculate_sanitized_body st p2h m).1.parts = m.parts := by
  by_cases hne : m.parts = []
  · unfold calculate_sanitized_body message_body
    rw [if_pos hne]
  · rw [calculate_sanitized_body_eq st p2h m hne]
    cases hfind : (m.parts.find? (fun q => q.block.content_type = some ("text/html".toList))) with
    | none =>
      simp only [Option.map_none']
      rw [plain_branch_parts]
    | some p =>
      simp only [hfind, Option.map_some']
      split
      · split
        · rfl
        · rfl
      · rw [plain_branch_parts]

lemma post_pass_parts (inp : SyncInput) (m : MsgState) :
    (post_pass inp m).parts = m.parts := by
  simp only [post_pass]
  split <;> split <;> split <;> split <;> rfl

/-- The walk loop on the empty part list. -/
lemma process_walk_nil (inp : SyncInput) (i : Nat) (m : MsgState) :
    process_walk inp [] i m = (m, none) := rfl

/-- Unfolding one step of the part-walk loop. -/
lemma process_walk_cons (inp : SyncInput) (p : MimePart) (rest : List MimePart)
    (i : Nat) (m : MsgState) :
    process_walk inp (p :: rest) i m =
      (if p.is_multipart then process_walk inp rest (i + 1) m
      else if ("ical_autoimport".toList) ∈ inp.feature_flags ∧
            p.ctype.format_type = "text".toList ∧ p.ctype.subtype = "calendar".toList then
          match inp.cal_import (i + 1) with
          | .ok _ => process_walk inp rest (i + 1)
              (_parse_mimepart inp.now inp.namespace_id m p (i + 1))
          | .error e =>
            if calendar_caught e then process_walk inp rest (i + 1)
                (_parse_mimepart inp.now inp.namespace_id m p (i + 1))
            else (_parse_mimepart inp.now inp.namespace_id m p (i + 1), some e)
        else process_walk inp rest (i + 1)
          (_parse_mimepart inp.now inp.namespace_id m p (i + 1))) := rfl

/-- `_parse_mimepart` either leaves the part collection unchanged (rejected
disposition or multipart node) or appends exactly one part at the given walk
index whose data satisfies the newline-normalization invariant. -/
lemma parse_mimepart_parts_spec (now namespace_id : Nat) (m : MsgState) (p : MimePart)
    (i : Nat) :
    (_parse_mimepart now namespace_id m p i).parts = m.parts ∨
    ∃ pr, (_parse_mimepart now namespace_id m p i).parts = m.parts ++ [pr] ∧
      pr.walk_index = i ∧
      (pr.block.content_type = some ("text/html".toList) → '\r' ∉ pr.block.data) := by
  cases p with
  | multi ct children => exact Or.inl rfl
  | leaf ct d df ci body =>
    rw [parse_mimepart_leaf]
    by_cases hd : d ≠ none ∧ d ≠ some ("inline".toList) ∧ d ≠ some ("attachment".toList)
    · rw [if_pos hd]
      exact Or.inl rfl
    · rw [if_neg hd]
      refine Or.inr ⟨_, rfl, rfl, ?_⟩
      intro hct
      have hv : ct.value = "text/html".toList := by
        exact Option.some.inj hct
      cases body with
      | none => simp
      | some b =>
        show '\r' ∉ (if ("text".toList).isPrefixOf ct.value then normalize_newlines b else b)
        rw [hv, if_pos (by decide)]
        exact cr_not_mem_normalize b

/-- One non-multipart step of the walk loop either recurses on the state
extended by `_parse_mimepart`, or stops there with an uncaught
calendar-importer exception. -/
lemma process_walk_cons_cases (inp : SyncInput) (p : MimePart) (rest : List MimePart)
    (i : Nat) (m : MsgState) (hnm : ¬ p.is_multipart = true) :
    process_walk inp (p :: rest) i m =
      process_walk inp rest (i + 1) (_parse_mimepart inp.now inp.namespace_id m p (i + 1)) ∨
    ∃ e, process_walk inp (p :: rest) i m =
        (_parse_mimepart inp.now inp.namespace_id m p (i + 1), some e) ∧
      calendar_caught e = false ∧ inp.cal_import (i + 1) = .error e := by
  rw [process_walk_cons, if_neg hnm]
  by_cases hcond : ("ical_autoimport".toList) ∈ inp.feature_flags ∧
      p.ctype.format_type = "text".toList ∧ p.ctype.subtype = "calendar".toList
  · rw [if_pos hcond]
    cases hci : inp.cal_import (i + 1) with
    | ok u => exact Or.inl rfl
    | error e =>
      by_cases hcc : calendar_caught e = true
      · left
        show (if calendar_caught e = true then _ else _) = _
        rw [if_pos hcc]
      · right
        refine ⟨e, ?_, by simpa using hcc, rfl⟩
        show (if calendar_caught e = true then _ else _) = _
        rw [if_neg hcc]
  · rw [if_neg hcond]
    exact Or.inl rfl

/-- When every calendar-importer failure is of a caught class, the part-walk
loop never propagates an exception. -/
lemma process_walk_err_none (inp : SyncInput)
    (hcal : ∀ j e, inp.cal_import j = .error e → calendar_caught e = true) :
    ∀ (l : List MimePart) (i : Nat) (m : MsgState), (process_walk inp l i m).2 = none := by
  intro l
  induction l with
  | nil => intro i m; rfl
  | cons p rest ih =>
    intro i m
    by_cases hm : p.is_multipart = true
    · rw [process_walk_cons, if_pos hm]
      exact ih _ _
    · rcases process_walk_cons_cases inp p rest i m hm with h | ⟨e, h, hcc, hci⟩
      · rw [h]
        exact ih _ _
      · rw [hcal (i + 1) e hci] at hcc
        exact absurd hcc (by simp)

/-- Structure of the part collection built by the walk loop: some list `ps`
of new parts is appended, their walk indices lie strictly between `i` and
`i + l.length`, they are strictly increasing, and each new `text/html` part
respects the newline-normalization invariant. -/
lemma process_walk_parts (inp : SyncInput) :
    ∀ (l : List MimePart) (i : Nat) (m : MsgState),
    ∃ ps, (process_walk inp l i m).1.parts = m.parts ++ ps ∧
      (∀ pr ∈ ps, i < pr.walk_index ∧ pr.walk_index ≤ i + l.length) ∧
      List.Chain' (· < ·) (ps.map (fun pr => pr.walk_index)) ∧
      (∀ pr ∈ ps, pr.block.content_type = some ("text/html".toList) → '\r' ∉ pr.block.data) := by
  intro l
  induction l with
  | nil =>
    intro i m
    exact ⟨[], by rw [process_walk_nil]; simp, by simp, by simp, by simp⟩
  | cons p rest ih =>
    intro i m
    have hrelax : ∀ ps : List PartRec, (∀ pr ∈ ps, i + 1 < pr.walk_index ∧
        pr.walk_index ≤ i + 1 + rest.length) →
        ∀ pr ∈ ps, i < pr.walk_index ∧ pr.walk_index ≤ i + (p :: rest).length := by
      intro ps h pr hpr
      have := h pr hpr
      simp only [List.length_cons]
      omega
    by_cases hm : p.is_multipart = true
    · rw [process_walk_cons, if_pos hm]
      obtain ⟨ps, h1, h2, h3, h4⟩ := ih (i + 1) m
      exact ⟨ps, h1, hrelax ps h2, h3, h4⟩
    · have hparse := parse_mimepart_parts_spec inp.now inp.namespace_id m p (i + 1)
      rcases process_walk_cons_cases inp p rest i m hm with h | ⟨e, h, hcc, hci⟩
      · rw [h]
        obtain ⟨ps, h1, h2, h3, h4⟩ :=
          ih (i + 1) (_parse_mimepart inp.now inp.namespace_id m p (i + 1))
        rcases hparse with hsame | ⟨pr0, happ, hidx, hcr0⟩
        · exact ⟨ps, by rw [h1, hsame], hrelax ps h2, h3, h4⟩
        · refine ⟨pr0 :: ps,
            by rw [h1, happ, List.append_assoc, List.singleton_append], ?_, ?_, ?_⟩
          · intro pr hpr
            rcases List.mem_cons.mp hpr with hpr | hpr
            · subst hpr
              simp only [hidx, List.length_cons]
              omega
            · exact hrelax ps h2 pr hpr
          · rw [List.map_cons, List.chain'_cons']
            refine ⟨?_, h3⟩
            intro y hy
            rcases List.mem_map.mp (List.mem_of_mem_head? hy) with ⟨q, hq, hqy⟩
            have := h2 q hq
            rw [hidx, ← hqy]
            omega
          · intro pr hpr
            rcases List.mem_cons.mp hpr with hpr | hpr
            · subst hpr
              exact hcr0
            · exact h4 pr hpr
      · rw [h]
        rcases hparse with hsame | ⟨pr0, happ, hidx, hcr0⟩
        · exact ⟨[], by simpa using hsame, by simp, by simp, by simp⟩
        · refine ⟨[pr0], by simpa using happ, ?_, by simp, ?_⟩
          · intro pr hpr
            rcases List.mem_singleton.mp hpr with hpr
            subst hpr
            simp only [hidx, List.length_cons]
            omega
          · intro pr hpr
            rcases List.mem_singleton.mp hpr with hpr
            subst hpr
            exact hcr0

/-- Body sanitization never raises on a message with a non-empty part list
whose `text/html` parts respect the normalization invariant: the
`assert self.parts` and `assert '\r' not in html_part` both pass. -/
lemma calculate_sanitized_body_err_none (st p2h : Str → Str) (m : MsgState)
    (hne : m.parts ≠ []) (hcr : html_no_cr m) :
    (calculate_sanitized_body st p2h m).2 = none := by
  rw [calculate_sanitized_body_eq st p2h m hne]
  cases hfind : (m.parts.find? (fun q => q.block.content_type = some ("text/html".toList))) with
  | none => rfl
  | some p =>
    simp only [hfind, Option.map_some']
    by_cases hemp : pyStrip p.block.data ≠ []
    · rw [if_pos hemp]
      have hpct : p.block.content_type = some ("text/html".toList) := by
        simpa using List.find?_some hfind
      have hnocr : '\r' ∉ pyStrip p.block.data :=
        fun hmemc => hcr p (List.mem_of_find?_eq_some hfind) hpct (mem_pyStrip hmemc)
      rw [if_neg hnocr]
    · rw [if_neg hemp]

lemma try_block_tok_err (inp : SyncInput) (e : PyExn) (h : inp.tokenize = .error e) :
    try_block inp = (init_msg inp, some e) := by
  unfold try_block
  rw [h]

lemma try_block_date_err (inp : SyncInput) (parsed : ParsedMime) (e : PyExn)
    (h1 : inp.tokenize = .ok parsed) (h2 : recv_date inp parsed = .error e) :
    try_block inp = (header_fields_msg inp parsed, some e) := by
  unfold try_block
  rw [h1]
  show (match recv_date inp parsed with
    | .error e => (header_fields_msg inp parsed, some e)
    | .ok rd =>
      match process_walk inp (msgWalk parsed.root) 0 (pre_walk_msg inp parsed rd) with
      | (m', some e) => (m', some e)
      | (m', none) => calculate_sanitized_body inp.strip_tags inp.plaintext2html m') =
    (header_fields_msg inp parsed, some e)
  rw [h2]

lemma try_block_ok (inp : SyncInput) (parsed : ParsedMime) (rd : Nat)
    (h1 : inp.tokenize = .ok parsed) (h2 : recv_date inp parsed = .ok rd) :
    try_block inp =
      (match process_walk inp (msgWalk parsed.root) 0 (pre_walk_msg inp parsed rd) with
      | (m', some e) => (m', some e)
      | (m', none) => calculate_sanitized_body inp.strip_tags inp.plaintext2html m') := by
  unfold try_block
  rw [h1]
  show (match recv_date inp parsed with
    | .error e => (header_fields_msg inp parsed, some e)
    | .ok rd =>
      match process_walk inp (msgWalk parsed.root) 0 (pre_walk_msg inp parsed rd) with
      | (m', some e) => (m', some e)
      | (m', none) => calculate_sanitized_body inp.strip_tags inp.plaintext2html m') = _
  rw [h2]

lemma pre_walk_msg_parts (inp : SyncInput) (parsed : ParsedMime) (rd : Nat) :
    (pre_walk_msg inp parsed rd).parts = [headers_part inp parsed] := rfl

/-- The state reached by a completed walk: the headers part followed by the
walked leaf parts, with the normalization invariant, a non-empty part list,
and strictly increasing walk indices starting at the headers part's 0. -/
lemma walk_result_good (inp : SyncInput) (parsed : ParsedMime) (rd : Nat) :
    ∀ m', (process_walk inp (msgWalk parsed.root) 0 (pre_walk_msg inp parsed rd)).1 = m' →
      m'.parts ≠ [] ∧ html_no_cr m' ∧
        List.Chain' (· < ·) (m'.parts.map (fun pr => pr.walk_index)) := by
  intro m' hm'
  obtain ⟨ps, h1, h2, h3, h4⟩ :=
    process_walk_parts inp (msgWalk parsed.root) 0 (pre_walk_msg inp parsed rd)
  rw [hm', pre_walk_msg_parts] at h1
  rw [List.singleton_append] at h1
  refine ⟨by rw [h1]; exact List.cons_ne_nil _ _, ?_, ?_⟩
  · intro pr hpr hct
    rw [h1] at hpr
    rcases List.mem_cons.mp hpr with hpr | hpr
    · subst hpr
      exact absurd hct (by simp [headers_part])
    · exact h4 pr hpr hct
  · rw [h1, List.map_cons, List.chain'_cons']
    refine ⟨?_, h3⟩
    intro y hy
    rcases List.mem_map.mp (List.mem_of_mem_head? hy) with ⟨q, hq, hqy⟩
    have := h2 q hq
    show (headers_part inp parsed).walk_index < y
    have hz : (headers_part inp parsed).walk_index = 0 := rfl
    omega

/-! ### C1: the failure boundary of `create_from_synced` -/

/-- C1: for every invocation whose required arguments are present (encoded by
the types of `SyncInput`) and whose external capabilities fail only with
their documented exception classes — the tokenizer and the header-date
derivation with parse-class errors (caught by the outer handler), the
calendar importer with the classes its local handlers catch —
`create_from_synced` returns a Message and never propagates an exception,
whichever steps fail.  In particular the two `assert` statements reached
during body sanitization are proved unreachable. -/
theorem create_from_synced_total (inp : SyncInput)
    (htok : ∀ e, inp.tokenize = .error e → outer_caught e = true)
    (hdate : ∀ parsed e, inp.tokenize = .ok parsed → parsed.internal_date = .error e →
      outer_caught e = true)
    (hcal : ∀ j e, inp.cal_import j = .error e → calendar_caught e = true) :
    ∃ m, create_from_synced inp = .ok m := by
  unfold create_from_synced
  cases htb : inp.tokenize with
  | error e =>
    rw [try_block_tok_err inp e htb]
    refine ⟨post_pass inp (_mark_error inp.now (init_msg inp)), ?_⟩
    show (if outer_caught e = true then _ else _) = _
    rw [if_pos (htok e htb)]
  | ok parsed =>
    cases hrd : recv_date inp parsed with
    | error e =>
      rw [try_block_date_err inp parsed e htb hrd]
      have hout : outer_caught e = true := by
        unfold recv_date at hrd
        cases hro : inp.received_date with
        | some d =>
          rw [hro] at hrd
          exact absurd hrd (by simp)
        | none =>
          rw [hro] at hrd
          exact hdate parsed e htb hrd
      refine ⟨post_pass inp (_mark_error inp.now (header_fields_msg inp parsed)), ?_⟩
      show (if outer_caught e = true then _ else _) = _
      rw [if_pos hout]
    | ok rd =>
      rw [try_block_ok inp parsed rd htb hrd]
      have herr := process_walk_err_none inp hcal (msgWalk parsed.root) 0
        (pre_walk_msg inp parsed rd)
      cases hpw : process_walk inp (msgWalk parsed.root) 0 (pre_walk_msg inp parsed rd) with
      | mk m' e' =>
        rw [hpw] at herr
        simp only at herr
        subst herr
        obtain ⟨hne, hcr, _⟩ := walk_result_good inp parsed rd m' (by rw [hpw])
        have hsan := calculate_sanitized_body_err_none inp.strip_tags inp.plaintext2html m'
          hne hcr
        cases hsb : calculate_sanitized_body inp.strip_tags inp.plaintext2html m' with
        | mk m2 e2 =>
          rw [hsb] at hsan
          simp only at hsan
          subst hsan
          refine ⟨post_pass inp m2, ?_⟩
          show (match calculate_sanitized_body inp.strip_tags inp.plaintext2html m' with
            | (m, none) => Except.ok (post_pass inp m)
            | (m, some e) =>
              if outer_caught e = true then
                Except.ok (post_pass inp (_mark_error inp.now m))
              else Except.error e) = Except.ok (post_pass inp m2)
          rw [hsb]

/-- A concrete input whose tokenization fails with a `DecodingError` and
whose other capabilities never fail. -/
def c1_inp : SyncInput :=
  { namespace_id := 1
    account_id := 2
    mid := 3
    folder_name := "inbox".toList
    received_date := none
    body_string := "not mime".toList
    tokenize := .error .DecodingError
    cal_import := fun _ => .ok ()
    feature_flags := []
    max_len := 1000
    hash_fn := fun _ => []
    strip_tags := fun s => s
    plaintext2html := fun s => s
    now := 7 }

/-- C1 witness: on `c1_inp` (failing tokenization) the pipeline still
returns a message. -/
theorem create_from_synced_total_witness :
    ∃ m, create_from_synced c1_inp = .ok m :=
  create_from_synced_total c1_inp
    (fun e h => by
      have he : e = .DecodingError := Except.error.inj h.symm
      rw [he]
      rfl)
    (fun parsed e h _ => by
      exact absurd h (by simp [c1_inp]))
    (fun j e h => by
      exact absurd h (by simp [c1_inp]))

/-! ### C3: the oversize-field post-pass -/

/-- Full characterization of the oversize post-pass: each of the four checked
fields is cleared exactly when it is oversized, `decode_error` is set when
any of them is, `size` is zeroed by the shared error marker when any of them
is, and all other header fields, the hash, the body block and the parts are
untouched. -/
lemma post_pass_spec (inp : SyncInput) (m : MsgState) :
    (post_pass inp m).to_addr =
      (if json_field_too_long_addrs inp.max_len m.to_addr = true then some []
       else m.to_addr) ∧
    (post_pass inp m).cc_addr =
      (if json_field_too_long_addrs inp.max_len m.cc_addr = true then some []
       else m.cc_addr) ∧
    (post_pass inp m).bcc_addr =
      (if json_field_too_long_addrs inp.max_len m.bcc_addr = true then some []
       else m.bcc_addr) ∧
    (post_pass inp m).references =
      (if json_field_too_long_refs inp.max_len m.references = true then some []
       else m.references) ∧
    (post_pass inp m).decode_error =
      (m.decode_error || (json_field_too_long_addrs inp.max_len m.to_addr ||
        json_field_too_long_addrs inp.max_len m.cc_addr ||
        json_field_too_long_addrs inp.max_len m.bcc_addr ||
        json_field_too_long_refs inp.max_len m.references)) ∧
    (post_pass inp m).size =
      (if (json_field_too_long_addrs inp.max_len m.to_addr ||
          json_field_too_long_addrs inp.max_len m.cc_addr ||
          json_field_too_long_addrs inp.max_len m.bcc_addr ||
          json_field_too_long_refs inp.max_len m.references) = true then some 0
       else m.size) ∧
    (post_pass inp m).subject = m.subject ∧
    (post_pass inp m).from_addr = m.from_addr ∧
    (post_pass inp m).sender_addr = m.sender_addr ∧
    (post_pass inp m).reply_to = m.reply_to ∧
    (post_pass inp m).in_reply_to = m.in_reply_to ∧
    (post_pass inp m).message_id_header = m.message_id_header ∧
    (post_pass inp m).inbox_uid = m.inbox_uid ∧
    (post_pass inp m).data_sha256 = m.data_sha256 ∧
    (post_pass inp m).namespace_id = m.namespace_id ∧
    (post_pass inp m).full_body = m.full_body ∧
    (post_pass inp m).parts = m.parts := by
  unfold post_pass
  cases ht : json_field_too_long_addrs inp.max_len m.to_addr <;>
    cases hc : json_field_too_long_addrs inp.max_len m.cc_addr <;>
      cases hb : json_field_too_long_addrs inp.max_len m.bcc_addr <;>
        cases hr : json_field_too_long_refs inp.max_len m.references <;>
          simp [_mark_error, ht, hc, hb, hr]

/-- C3 amended: for every successfully parsed message, each of `to_addr`,
`cc_addr`, `bcc_addr` and `references` is cleared to empty by
`create_from_synced` exactly when it serializes above the configured
maximum, and whenever any of them does the message is marked
decode-errored; subject and the other header fields populated by earlier
steps remain populated, but `size` is reset to 0 by the shared error
marker. -/
theorem create_oversize_fields (inp : SyncInput) (m0 : MsgState)
    (hrun : try_block inp = (m0, none)) :
    ∃ m, create_from_synced inp = .ok m ∧
      m.to_addr =
        (if json_field_too_long_addrs inp.max_len m0.to_addr = true then some []
         else m0.to_addr) ∧
      m.cc_addr =
        (if json_field_too_long_addrs inp.max_len m0.cc_addr = true then some []
         else m0.cc_addr) ∧
      m.bcc_addr =
        (if json_field_too_long_addrs inp.max_len m0.bcc_addr = true then some []
         else m0.bcc_addr) ∧
      m.references =
        (if json_field_too_long_refs inp.max_len m0.references = true then some []
         else m0.references) ∧
      m.decode_error =
        (m0.decode_error || (json_field_too_long_addrs inp.max_len m0.to_addr ||
          json_field_too_long_addrs inp.max_len m0.cc_addr ||
          json_field_too_long_addrs inp.max_len m0.bcc_addr ||
          json_field_too_long_refs inp.max_len m0.references)) ∧
      m.size =
        (if (json_field_too_long_addrs inp.max_len m0.to_addr ||
            json_field_too_long_addrs inp.max_len m0.cc_addr ||
            json_field_too_long_addrs inp.max_len m0.bcc_addr ||
            json_field_too_long_refs inp.max_len m0.references) = true then some 0
         else m0.size) ∧
      m.subject = m0.subject ∧
      m.from_addr = m0.from_addr ∧
      m.sender_addr = m0.sender_addr ∧
      m.reply_to = m0.reply_to ∧
      m.in_reply_to = m0.in_reply_to ∧
      m.message_id_header = m0.message_id_header ∧
      m.inbox_uid = m0.inbox_uid ∧
      m.data_sha256 = m0.data_sha256 ∧
      m.namespace_id = m0.namespace_id ∧
      m.full_body = m0.full_body ∧
      m.parts = m0.parts := by
  refine ⟨post_pass inp m0, ?_, post_pass_spec inp m0⟩
  unfold create_from_synced
  rw [hrun]

/-- A concrete fully successful single-part input whose references field
trips the (configured) oversize threshold of 2. -/
def c3_inp : SyncInput :=
  { namespace_id := 1
    account_id := 2
    mid := 3
    folder_name := "inbox".toList
    received_date := some 5
    body_string := "hello!".toList
    tokenize := .ok
      { mime_version := none
        clean_subject := some ("hi".toList)
        from_addr := []
        sender_addr := []
        reply_to := []
        to_addr := []
        cc_addr := []
        bcc_addr := []
        in_reply_to := none
        message_id := none
        inbox_uid := none
        references_hdr := some ("<a@b>".toList)
        internal_date := .ok 0
        headers_items := []
        root := .leaf ⟨"text".toList, "plain".toList, none⟩ none none none
          (some ("Hello\r\nWorld".toList)) }
    cal_import := fun _ => .ok ()
    feature_flags := []
    max_len := 2
    hash_fn := fun _ => []
    strip_tags := fun s => s
    plaintext2html := fun s => s
    now := 99 }

/-- C3 counterexample: on `c3_inp` the parse succeeds and sets `size` to the
raw length 6, the oversized references are cleared and `decode_error` is set
(as the claim says), but `size` — an unrelated field populated by an earlier
step — is overwritten to 0 rather than remaining populated. -/
theorem oversize_refs_zeroes_size :
    (try_block c3_inp).2 = none ∧
    (try_block c3_inp).1.size = some 6 ∧
    (create_from_synced c3_inp).toOption.map (fun m => m.references) = some (some []) ∧
    (create_from_synced c3_inp).toOption.map (fun m => m.decode_error) = some true ∧
    (create_from_synced c3_inp).toOption.map (fun m => m.subject) =
      some (some ("hi".toList)) ∧
    (create_from_synced c3_inp).toOption.map (fun m => m.size) = some (some 0) ∧
    ¬ (some (0 : Nat) = some 6) := by
  refine ⟨?_, ?_, ?_, ?_, ?_, ?_, ?_⟩ <;> decide

/-- The message state produced by the successful try block on `c3_inp`. -/
def c3_m0 : MsgState := (try_block c3_inp).1

/-- C3 amended witness: instantiating the oversize-field theorem at
`c3_inp`, whose references field alone trips the threshold. -/
theorem create_oversize_fields_witness :
    ∃ m, create_from_synced c3_inp = .ok m ∧
      m.to_addr =
        (if json_field_too_long_addrs c3_inp.max_len c3_m0.to_addr = true then some []
         else c3_m0.to_addr) ∧
      m.cc_addr =
        (if json_field_too_long_addrs c3_inp.max_len c3_m0.cc_addr = true then some []
         else c3_m0.cc_addr) ∧
      m.bcc_addr =
        (if json_field_too_long_addrs c3_inp.max_len c3_m0.bcc_addr = true then some []
         else c3_m0.bcc_addr) ∧
      m.references =
        (if json_field_too_long_refs c3_inp.max_len c3_m0.references = true then some []
         else c3_m0.references) ∧
      m.decode_error =
        (c3_m0.decode_error || (json_field_too_long_addrs c3_inp.max_len c3_m0.to_addr ||
          json_field_too_long_addrs c3_inp.max_len c3_m0.cc_addr ||
          json_field_too_long_addrs c3_inp.max_len c3_m0.bcc_addr ||
          json_field_too_long_refs c3_inp.max_len c3_m0.references)) ∧
      m.size =
        (if (json_field_too_long_addrs c3_inp.max_len c3_m0.to_addr ||
            json_field_too_long_addrs c3_inp.max_len c3_m0.cc_addr ||
            json_field_too_long_addrs c3_inp.max_len c3_m0.bcc_addr ||
            json_field_too_long_refs c3_inp.max_len c3_m0.references) = true then some 0
         else c3_m0.size) ∧
      m.subject = c3_m0.subject ∧
      m.from_addr = c3_m0.from_addr ∧
      m.sender_addr = c3_m0.sender_addr ∧
      m.reply_to = c3_m0.reply_to ∧
      m.in_reply_to = c3_m0.in_reply_to ∧
      m.message_id_header = c3_m0.message_id_header ∧
      m.inbox_uid = c3_m0.inbox_uid ∧
      m.data_sha256 = c3_m0.data_sha256 ∧
      m.namespace_id = c3_m0.namespace_id ∧
      m.full_body = c3_m0.full_body ∧
      m.parts = c3_m0.parts :=
  create_oversize_fields c3_inp c3_m0 (by decide)

/-! ### C4: walk indices -/

/-- Under an accepted disposition, `_parse_mimepart` appends exactly one part
at the given walk index. -/
lemma parse_mimepart_parts_ok (now namespace_id : Nat) (m : MsgState) (ct : CType)
    (d df ci b : Option Str) (i : Nat) (hd : disp_ok d) :
    ∃ pr : PartRec, (_parse_mimepart now namespace_id m (.leaf ct d df ci b) i).parts =
      m.parts ++ [pr] ∧ pr.walk_index = i := by
  have hrej : ¬ (d ≠ none ∧ d ≠ some ("inline".toList) ∧ d ≠ some ("attachment".toList)) := by
    rcases hd with h | h | h <;> simp [h]
  rw [parse_mimepart_leaf, if_neg hrej]
  exact ⟨_, rfl, rfl⟩

/-- On a list of leaves, flanker's depth-first enumeration is the list
itself. -/
lemma walkDescList_leaves (cs : List MimePart) (h : ∀ c ∈ cs, c.is_multipart = false) :
    walkDescList cs = cs := by
  induction cs with
  | nil => rfl
  | cons c rest ih =>
    have hc := h c (List.mem_cons_self c rest)
    have hd : c.walkDescendants = [] := by
      cases c with
      | leaf ct d df ci b => rfl
      | multi ct children => exact absurd hc (by simp [MimePart.is_multipart])
    show c :: c.walkDescendants ++ walkDescList rest = c :: rest
    rw [hd, ih (fun x hx => h x (List.mem_cons_of_mem c hx))]
    rfl

/-- On a flat list of accepted leaves, and with no uncaught calendar error,
the walk loop appends exactly one part per leaf with consecutive indices. -/
lemma process_walk_flat (inp : SyncInput)
    (hcal : ∀ j e, inp.cal_import j = .error e → calendar_caught e = true) :
    ∀ (cs : List MimePart) (i : Nat) (m : MsgState),
    (∀ c ∈ cs, c.is_multipart = false ∧ disp_ok c.disposition) →
    (process_walk inp cs i m).1.parts.map (fun pr => pr.walk_index) =
      m.parts.map (fun pr => pr.walk_index) ++ List.range' (i + 1) cs.length := by
  intro cs
  induction cs with
  | nil =>
    intro i m _
    rw [process_walk_nil]
    simp
  | cons c rest ih =>
    intro i m h
    obtain ⟨hnm, hd⟩ := h c (List.mem_cons_self c rest)
    have hnm' : ¬ c.is_multipart = true := by simp [hnm]
    rcases process_walk_cons_cases inp c rest i m hnm' with hstep | ⟨e, _, hcc, hci⟩
    · rw [hstep]
      match c, hnm with
      | .leaf ct d df ci b, _ =>
        obtain ⟨pr, happ, hidx⟩ :=
          parse_mimepart_parts_ok inp.now inp.namespace_id m ct d df ci b (i + 1)
            (by simpa [MimePart.disposition] using hd)
        rw [ih (i + 1) _ (fun x hx => h x (List.mem_cons_of_mem _ hx))]
        rw [happ, List.map_append, List.map_cons]
        simp only [List.map_nil, hidx, List.length_cons, List.append_assoc,
          List.singleton_append]
        rw [← List.range'_succ]
    · rw [hcal (i + 1) e hci] at hcc
      exact absurd hcc (by simp)

/-- Every state `try_block` can return has strictly increasing walk
indices. -/
lemma try_block_chain (inp : SyncInput) :
    List.Chain' (· < ·) ((try_block inp).1.parts.map (fun pr => pr.walk_index)) := by
  cases htb : inp.tokenize with
  | error e =>
    rw [try_block_tok_err inp e htb]
    simp [init_msg]
  | ok parsed =>
    cases hrd : recv_date inp parsed with
    | error e =>
      rw [try_block_date_err inp parsed e htb hrd]
      simp [header_fields_msg, init_msg]
    | ok rd =>
      rw [try_block_ok inp parsed rd htb hrd]
      cases hpw : process_walk inp (msgWalk parsed.root) 0 (pre_walk_msg inp parsed rd) with
      | mk m' e' =>
        obtain ⟨_, _, hchain⟩ := walk_result_good inp parsed rd m' (by rw [hpw])
        cases e' with
        | none =>
          show List.Chain' (· < ·)
            ((calculate_sanitized_body inp.strip_tags inp.plaintext2html m').1.parts.map
              (fun pr => pr.walk_index))
          rw [calculate_sanitized_body_parts]
          exact hchain
        | some e => exact hchain

/-- C4 amended: (i) every message returned by `create_from_synced` has
strictly increasing (hence unique) walk indices; (ii) a single-part message
with an accepted disposition yields, next to the index-0 headers part,
exactly one leaf part with walk index 1; (iii) an N-leaf flat multipart
message (no nested multipart, all dispositions accepted, no uncaught
calendar error) yields leaf indices exactly 1..N.  Nested multipart
containers and rejected leaves consume indices, which is what the
counterexample exhibits. -/
theorem walk_indices_amended :
    (∀ (inp : SyncInput) (m : MsgState), create_from_synced inp = .ok m →
      List.Chain' (· < ·) (m.parts.map (fun pr => pr.walk_index))) ∧
    (∀ (inp : SyncInput) (m0 : MsgState) (ct : CType) (d df ci b : Option Str),
      m0.parts.map (fun pr => pr.walk_index) = [0] → disp_ok d →
      (process_walk inp (msgWalk (.leaf ct d df ci b)) 0 m0).1.parts.map
        (fun pr => pr.walk_index) = [0, 1]) ∧
    (∀ (inp : SyncInput) (m0 : MsgState) (ct : CType) (cs : List MimePart),
      m0.parts.map (fun pr => pr.walk_index) = [0] →
      (∀ c ∈ cs, c.is_multipart = false ∧ disp_ok c.disposition) →
      (∀ j e, inp.cal_import j = .error e → calendar_caught e = true) →
      (process_walk inp (msgWalk (.multi ct cs)) 0 m0).1.parts.map
        (fun pr => pr.walk_index) = 0 :: List.range' 1 cs.length) := by
  refine ⟨?_, ?_, ?_⟩
  · intro inp m hok
    unfold create_from_synced at hok
    cases htb : try_block inp with
    | mk m0 e0 =>
      rw [htb] at hok
      have hchain := try_block_chain inp
      rw [htb] at hchain
      cases e0 with
      | none =>
        have hm : post_pass inp m0 = m := Except.ok.inj hok
        rw [← hm, post_pass_parts]
        exact hchain
      | some e =>
        have hok' : (if outer_caught e = true then
            Except.ok (post_pass inp (_mark_error inp.now m0))
          else Except.error e) = Except.ok m := hok
        by_cases hc : outer_caught e = true
        · rw [if_pos hc] at hok'
          have hm : post_pass inp (_mark_error inp.now m0) = m := Except.ok.inj hok'
          rw [← hm, post_pass_parts, mark_error_parts]
          exact hchain
        · rw [if_neg hc] at hok'
          exact absurd hok' (by simp)
  · intro inp m0 ct d df ci b h0 hd
    have hwalk : msgWalk (.leaf ct d df ci b) = [.leaf ct d df ci b] := rfl
    rw [hwalk]
    obtain ⟨pr, happ, hidx⟩ :=
      parse_mimepart_parts_ok inp.now inp.namespace_id m0 ct d df ci b 1 hd
    have hnm : ¬ (MimePart.leaf ct d df ci b).is_multipart = true := by
      simp [MimePart.is_multipart]
    rcases process_walk_cons_cases inp (.leaf ct d df ci b) [] 0 m0 hnm with
      hstep | ⟨e, hstep, _, _⟩
    · rw [hstep, process_walk_nil]
      show (_parse_mimepart inp.now inp.namespace_id m0 (.leaf ct d df ci b) (0 + 1)).parts.map
        (fun pr => pr.walk_index) = [0, 1]
      rw [happ, List.map_append, h0]
      simp [hidx]
    · rw [hstep]
      show (_parse_mimepart inp.now inp.namespace_id m0 (.leaf ct d df ci b) (0 + 1)).parts.map
        (fun pr => pr.walk_index) = [0, 1]
      rw [happ, List.map_append, h0]
      simp [hidx]
  · intro inp m0 ct cs h0 hleaves hcal
    have hwalk : msgWalk (.multi ct cs) = walkDescList cs := rfl
    rw [hwalk, walkDescList_leaves cs (fun c hc => (hleaves c hc).1)]
    rw [process_walk_flat inp hcal cs 0 m0 hleaves, h0]
    rfl

/-- A multipart message with a nested `multipart/alternative` between two
leaves: document order is leaf, nested container, leaf. -/
def c4_inp : SyncInput :=
  { namespace_id := 1
    account_id := 2
    mid := 3
    folder_name := "inbox".toList
    received_date := some 5
    body_string := "raw".toList
    tokenize := .ok
      { mime_version := none
        clean_subject := some ("hi".toList)
        from_addr := []
        sender_addr := []
        reply_to := []
        to_addr := []
        cc_addr := []
        bcc_addr := []
        in_reply_to := none
        message_id := none
        inbox_uid := none
        references_hdr := none
        internal_date := .ok 0
        headers_items := []
        root := .multi ⟨"multipart".toList, "mixed".toList, none⟩
          [ .leaf ⟨"text".toList, "plain".toList, none⟩ none none none (some ("a".toList)),
            .multi ⟨"multipart".toList, "alternative".toList, none⟩
              [ .leaf ⟨"text".toList, "html".toList, none⟩ none none none
                  (some ("<p>b</p>".toList)) ] ] }
    cal_import := fun _ => .ok ()
    feature_flags := []
    max_len := 1000
    hash_fn := fun _ => []
    strip_tags := fun s => s
    plaintext2html := fun s => s
    now := 99 }

/-- C4 counterexample: on `c4_inp` the message has exactly 2 leaf parts, but
their walk indices are `[1, 3]` — the skipped nested multipart consumed
index 2 — not the gap-free `1..2` the claim requires. -/
theorem nested_multipart_gaps :
    (create_from_synced c4_inp).toOption.map
        (fun m => m.parts.map (fun pr => pr.walk_index)) = some [0, 1, 3] ∧
    (create_from_synced c4_inp).toOption.map
        (fun m => ((m.parts.map (fun pr => pr.walk_index)).filter
          (fun i => ¬ i = 0)).length) = some 2 ∧
    ¬ (([1, 3] : List Nat) = List.range' 1 2) := by
  refine ⟨?_, ?_, ?_⟩ <;> decide

/-- A start state holding only an index-0 headers part. -/
def c4_m0 : MsgState :=
  { parts := [{ walk_index := 0, content_disposition := none, content_id := none
                block := { namespace_id := some 1, content_type := none
                           filename := none, data := [] } }] }

/-- C4 amended witness: a single accepted `text/plain` leaf yields walk
indices `[0, 1]`. -/
theorem walk_indices_amended_witness :
    (process_walk c3_inp (msgWalk (.leaf ⟨"text".toList, "plain".toList, none⟩
        none none none (some ("x".toList)))) 0 c4_m0).1.parts.map
      (fun pr => pr.walk_index) = [0, 1] :=
  walk_indices_amended.2.1 c3_inp c4_m0 ⟨"text".toList, "plain".toList, none⟩
    none none none (some ("x".toList)) (by decide) (Or.inl rfl)

end SyncEngine
